import Mathlib

/-!
Shallow embedding of the zoltan core (pattern engine, symbol resolver,
DWARF emitter fragments) used to check the specification claims.
Rust machine integers (u64/usize) are modelled as `Nat` with explicit
reduction modulo 2^64 where the source performs wrapping arithmetic
(release-profile semantics: overflow-checks off).  Fallible Rust code
returning `Result` is modelled with `Except`; code paths that panic
(out-of-range slice indexing, unchecked subtraction feeding a slice
index) are modelled with an outer `Option`, `none` denoting the panic.
-/

/-- 2^64, the modulus of Rust's `u64`/`usize` on x86-64. -/
def U64 : Nat := 2 ^ 64

/-- Wrapping `u64` addition. -/
def wadd (a b : Nat) : Nat := (a + b) % U64

/-- Wrapping `u64` subtraction (two's complement). -/
def wsub (a b : Nat) : Nat := (a % U64 + (U64 - b % U64)) % U64

/-- Wrapping `u64` multiplication. -/
def wmul (a b : Nat) : Nat := (a * b) % U64

/-- An `i64`/`Int` value truncated to a `u64` bit pattern (`as u64` cast). -/
def wionat (x : Int) : Nat := (x.emod (U64 : Int)).toNat

/-! ## Pattern engine (src/core/src/patterns.rs) -/

/-- `VarType` from patterns.rs: the capture-group kind (only `Rel`). -/
inductive VarType where
  | Rel
deriving DecidableEq, Repr

/-- `PatItem` from patterns.rs: one element of a byte pattern.
Bytes (`u8`) are modelled as `Nat` (the parser only produces values < 256). -/
inductive PatItem where
  | Byte (value : Nat)
  | Any
  | Group (name : String) (typ : VarType)
deriving DecidableEq, Repr

/-- `PatItem::size`: bytes occupied by one item. -/
def PatItem.size : PatItem → Nat
  | .Byte _ => 1
  | .Any => 1
  | .Group _ .Rel => 4

/-- `PatItem::as_byte` from the `EnumAsInner` derive. -/
def PatItem.asByte : PatItem → Option Nat
  | .Byte v => some v
  | _ => none

/-- Whether an item is a `Byte` (used by `group_by` in `longest_byte_sequence`). -/
def PatItem.isByte : PatItem → Bool
  | .Byte _ => true
  | _ => false

/-- A `Pattern` is its item list; the cached `size` field of the Rust struct is
always the sum of item sizes (established by `Pattern::new`), so it is computed. -/
def Pattern := List PatItem

instance : DecidableEq Pattern := inferInstanceAs (DecidableEq (List PatItem))

/-- `Pattern::size`: sum of the item sizes (maintained by `Pattern::new`). -/
def patSize (p : Pattern) : Nat := (p.map PatItem.size).sum

/-- `Pattern::groups`: `(name, var type, byte offset)` for each capture group,
in declaration order, the offset being the total size of the preceding items. -/
def patGroups (p : Pattern) : List (String × VarType × Nat) :=
  let rec go : List PatItem → Nat → List (String × VarType × Nat)
    | [], _ => []
    | .Group name typ :: rest, off => (name, typ, off) :: go rest (off + PatItem.size (.Group name typ))
    | it :: rest, off => go rest (off + it.size)
  go p 0

/-- `Pattern::does_match`, transcribing the iterator walk: `Byte` consumes one
byte and compares; `Group` requires `advance_by(4)` to succeed; `Any` calls
`next()` and ignores the result (so an exhausted iterator does NOT fail). -/
def doesMatch : List PatItem → List Nat → Bool
  | [], _ => true
  | .Byte _ :: _, [] => false
  | .Byte v :: ps, b :: bs => v == b && doesMatch ps bs
  | .Any :: ps, [] => doesMatch ps []
  | .Any :: ps, _ :: bs => doesMatch ps bs
  | .Group n t :: ps, bs =>
      if PatItem.size (.Group n t) ≤ bs.length then doesMatch ps (bs.drop 4) else false

/-- `slice::group_by(|a, b| a.as_byte().is_some() && b.as_byte().is_some())`:
maximal runs of consecutive `Byte` items (non-`Byte` items form singleton runs). -/
def splitRuns : List PatItem → List (List PatItem)
  | [] => []
  | [p] => [[p]]
  | p :: q :: rest =>
      match splitRuns (q :: rest) with
      | g :: gs => if p.isByte && q.isByte then (p :: g) :: gs else [p] :: g :: gs
      | [] => [[p]]

/-- The runs of `splitRuns` paired with the index (into the item list) at which
each run starts, mirroring the pointer arithmetic of `offset_from`. -/
def runsWithIdx (parts : List PatItem) : List (Nat × List PatItem) :=
  let rec go : List (List PatItem) → Nat → List (Nat × List PatItem)
    | [], _ => []
    | g :: gs, i => (i, g) :: go gs (i + g.length)
  go (splitRuns parts) 0

/-- `max_by_key(|parts| parts.len())`: Rust returns the LAST maximal element,
so on ties the later run replaces the earlier one.  `unwrap_or_default` for a
pattern with no items yields the empty run; its start index is modelled as 0
(the source computes `offset_from` on a dangling default slice there). -/
def longestRunWithIdx (parts : List PatItem) : Nat × List PatItem :=
  (runsWithIdx parts).foldl
    (fun best g => match best with
      | none => some g
      | some b => if b.2.length ≤ g.2.length then some g else some b)
    none |>.getD (0, [])

/-- The byte offset of the longest literal run inside the pattern:
`pat.parts[0..start].iter().map(PatItem::size).sum()`. -/
def runByteOffset (parts : List PatItem) : Nat :=
  ((parts.take (longestRunWithIdx parts).1).map PatItem.size).sum

/-- The byte string handed to the Aho-Corasick automaton for one pattern:
`seq.iter().filter_map(PatItem::as_byte)`. -/
def runBytes (parts : List PatItem) : List Nat :=
  (longestRunWithIdx parts).2.filterMap PatItem.asByte

/-- `Match` from patterns.rs. -/
structure SearchMatch where
  pattern : Nat
  rva : Nat
deriving DecidableEq, Repr

/-- Model of `AhoCorasick::find_overlapping_iter`: every occurrence of every
needle, enumerated by increasing end position (ties by needle index), which is
the automaton's native overlapping order.  An empty needle occurs at every
position. -/
def acHits (seqs : List (List Nat)) (hay : List Nat) : List (Nat × Nat) :=
  (List.range (hay.length + 1)).flatMap fun e =>
    (seqs.enum.filterMap fun (k, s) =>
      if s.length ≤ e && (hay.drop (e - s.length)).take s.length == s
      then some (k, e - s.length)
      else none)

/-- The candidate-testing loop of `multi_search`.  For a hit at position `p`
for pattern `k`, the source computes `start = p - offset` (usize subtraction:
panics/wraps when `p < offset`) and slices `haystack[start..start + size]`
WITHOUT a bounds check; both failure modes abort the search with a panic,
modelled as `none`. -/
def processHits (pats : List Pattern) (hay : List Nat) : List (Nat × Nat) → Option (List SearchMatch)
  | [] => some []
  | (k, p) :: rest =>
      match pats.get? k with
      | none => none
      | some pat =>
          let off := runByteOffset pat
          if off ≤ p then
            let start := p - off
            if start + patSize pat ≤ hay.length then
              match processHits pats hay rest with
              | none => none
              | some ms =>
                  if doesMatch pat ((hay.drop start).take (patSize pat))
                  then some (⟨k, start⟩ :: ms)
                  else some ms
            else none
          else none

/-- `multi_search` from patterns.rs: seed an Aho-Corasick automaton with each
pattern's longest literal run, then test each overlapping hit with the match
predicate.  `none` models the panic on an out-of-range candidate slice. -/
def multiSearch (pats : List Pattern) (hay : List Nat) : Option (List SearchMatch) :=
  processHits pats hay (acHits (pats.map runBytes) hay)

/-! ## Type model (src/core/src/types.rs) -/

/-- `POINTER_SIZE` from types.rs. -/
def POINTER_SIZE : Nat := 8

/-- `MAX_ALIGN` from types.rs. -/
def MAX_ALIGN : Nat := 8

-- `Type` from types.rs (named `Ty` since `Type` is taken in Lean), with
-- `Type::Function(Rc<FunctionType>)` inlined as the pair of its two fields and
-- `Vec<Type>` rendered as the mutually-defined `TyList` so that the structurally
-- recursive name function reduces in the kernel.  Aggregate ids (interned `Ustr`
-- keys) are `String`s.
mutual
inductive Ty where
  | Void
  | Bool
  | Char (signed : Bool)
  | WChar
  | Short (signed : Bool)
  | Int (signed : Bool)
  | Long (signed : Bool)
  | Float
  | Double
  | Pointer (inner : Ty)
  | Reference (inner : Ty)
  | Array (inner : Ty)
  | FixedArray (inner : Ty) (size : Nat)
  | Function (params : TyList) (ret : Ty)
  | Union (id : String)
  | Struct (id : String)
  | Enum (id : String)

inductive TyList where
  | nil
  | cons (head : Ty) (tail : TyList)
end

/-- `FunctionType` from types.rs: ordered parameter types plus return type. -/
structure FunctionType where
  params : TyList
  returnType : Ty

/-- `Type::name`'s final assembly: left part plus optional right part. -/
def combineLR (l : String) (r : Option String) : String :=
  match r with
  | some s => l ++ s
  | none => l

/-- `", "`-separated rendering used by `format(", ")` on parameter names. -/
def joinComma : List String → String
  | [] => ""
  | [s] => s
  | s :: rest => s ++ ", " ++ joinComma rest

-- `Type::name_left` and `Type::name_right` from types.rs computed together
-- (first component: `name_left`; second: `name_right`), plus the parameter-name
-- list used by the `Function` case.  Transcribed case by case from the source.
mutual
def tyLR : Ty → String × Option String
  | .Void => ("void", none)
  | .Bool => ("bool", none)
  | .Char true => ("char", none)
  | .Char false => ("signed char", none)
  | .WChar => ("wchar_t", none)
  | .Short true => ("int16_t", none)
  | .Short false => ("uint16_t", none)
  | .Int true => ("int32_t", none)
  | .Int false => ("uint32_t", none)
  | .Long true => ("int64_t", none)
  | .Long false => ("uint64_t", none)
  | .Float => ("float", none)
  | .Double => ("double", none)
  | .Union id => (id, none)
  | .Struct id => (id, none)
  | .Enum id => (id, none)
  | .Pointer t =>
      let (l, r) := tyLR t
      (match t with
       | .Function _ _ => l ++ "(*)"
       | _ => l ++ "*", r)
  | .Reference t =>
      let (l, r) := tyLR t
      (match t with
       | .Function _ _ => l ++ "(&)"
       | _ => l ++ "&", r)
  | .Array t =>
      let (l, r) := tyLR t
      (l, some (r.getD "" ++ "[]"))
  | .FixedArray t n =>
      let (l, r) := tyLR t
      (l, some (r.getD "" ++ "[" ++ toString n ++ "]"))
  | .Function ps ret =>
      let (l, r) := tyLR ret
      (combineLR l r, some ("(" ++ joinComma (tyNames ps) ++ ")"))

def tyNames : TyList → List String
  | .nil => []
  | .cons t ts => combineLR (tyLR t).1 (tyLR t).2 :: tyNames ts
end

/-- `Type::name` from types.rs. -/
def tyName (t : Ty) : String := combineLR (tyLR t).1 (tyLR t).2

/-- `WChar` size: the source is `cfg`-dependent (2 on Windows, 4 on Unix);
the Unix value is used here. -/
def wcharSize : Nat := 4

/-- `DataMember` from types.rs. -/
structure DataMember where
  name : String
  typ : Ty
  bitOffset : Option Nat
  isBitfield : Bool

/-- `Method` from types.rs. -/
structure Method where
  name : String
  typ : FunctionType

/-- `StructType` from types.rs. -/
structure StructType where
  name : String
  base : Option String
  members : List DataMember
  virtualMethods : List Method
  size : Option Nat

/-- `UnionType` from types.rs. -/
structure UnionType where
  name : String
  members : List DataMember
  size : Option Nat

/-- `EnumType` from types.rs (members are name/value pairs). -/
structure EnumType where
  name : String
  members : List (String × Int)
  size : Option Nat

/-- `TypeInfo` from types.rs; the three `HashMap`s keyed by interned id are
modelled as association lists looked up by key. -/
structure TypeInfo where
  structs : List (String × StructType)
  unions : List (String × UnionType)
  enums : List (String × EnumType)

/-- `info.structs.get(id)`. -/
def lookupStruct (info : TypeInfo) (id : String) : Option StructType :=
  (info.structs.find? (fun kv => kv.1 == id)).map (·.2)

/-- `info.unions.get(id)`. -/
def lookupUnion (info : TypeInfo) (id : String) : Option UnionType :=
  (info.unions.find? (fun kv => kv.1 == id)).map (·.2)

/-- `info.enums.get(id)`. -/
def lookupEnum (info : TypeInfo) (id : String) : Option EnumType :=
  (info.enums.find? (fun kv => kv.1 == id)).map (·.2)

/-- `Type::size` from types.rs (bytes; `None` when undefined). -/
def tySize (info : TypeInfo) : Ty → Option Nat
  | .Void => some 0
  | .Bool => some 1
  | .Char _ => some 1
  | .WChar => some wcharSize
  | .Short _ => some 2
  | .Int _ => some 4
  | .Long _ => some 8
  | .Float => some 4
  | .Double => some 8
  | .Pointer _ => some POINTER_SIZE
  | .Reference _ => some POINTER_SIZE
  | .Array _ => none
  | .FixedArray t n => (tySize info t).map (· * n)
  | .Function _ _ => some POINTER_SIZE
  | .Union u => (lookupUnion info u).bind (·.size)
  | .Struct s => (lookupStruct info s).bind (·.size)
  | .Enum e => (lookupEnum info e).bind (·.size)

/-- `StructType::all_members`: base-chain members first, then own members.
The source recurses through the base chain relying on the documented
acyclicity invariant; the recursion is bounded here by a fuel argument
(callers pass the number of registered structs, enough for any acyclic chain). -/
def allMembersF (info : TypeInfo) : Nat → StructType → List DataMember
  | 0, s => s.members
  | fuel + 1, s =>
      match s.base.bind (lookupStruct info) with
      | some b => allMembersF info fuel b ++ s.members
      | none => s.members

/-- `StructType::has_virtual_methods` (direct or through the base chain),
fuelled like `allMembersF`. -/
def hasVirtualMethodsF (info : TypeInfo) : Nat → StructType → Bool
  | 0, s => !s.virtualMethods.isEmpty
  | fuel + 1, s =>
      !s.virtualMethods.isEmpty ||
        (match s.base.bind (lookupStruct info) with
         | some b => hasVirtualMethodsF info fuel b
         | none => false)

/-! ## DWARF emitter fragments (src/core/src/dwarf.rs) -/

/-- The member-location loop of `DwarfWriter::define_struct` (lines 192-217):
each member's `DW_AT_data_member_location` and the running-offset update.
A member with an explicit `bit_offset` REASSIGNS the running offset to
`bit_offset / 8` and is placed there.  A member without one is placed at the
CURRENT running offset, and afterwards (when its size is known) the source
executes `offset += offset % align; offset += size` with
`align = min(size, MAX_ALIGN)` — note this adds the misalignment remainder
instead of aligning up, and the placement happens before the adjustment.
(The source would panic on a zero-sized member, `% 0`; `Nat.mod_zero` differs
there, but no claim touches zero-sized members.) -/
def layoutLocs (info : TypeInfo) : List DataMember → Nat → List Nat
  | [], _ => []
  | m :: ms, offset =>
      match m.bitOffset with
      | some bits => bits / 8 :: layoutLocs info ms (bits / 8)
      | none =>
          offset ::
            layoutLocs info ms
              (match tySize info m.typ with
               | some sz => offset + offset % (min sz MAX_ALIGN) + sz
               | none => offset)

/-- `DW_AT_data_member_location` values emitted for a struct's regular members
by `define_struct`: the walk starts at 0, or at `POINTER_SIZE` when the struct
has (direct or inherited) virtual methods, because the synthetic `vft` member
is laid out first and advances the offset. -/
def defineStructLocs (info : TypeInfo) (s : StructType) : List Nat :=
  layoutLocs info (allMembersF info info.structs.length s)
    (if hasVirtualMethodsF info info.structs.length s then POINTER_SIZE else 0)

/-- Align `o` up to the next multiple of `a`. -/
def alignUp (o a : Nat) : Nat := if a = 0 then o else (o + a - 1) / a * a

/-- Modelled from the spec (§4.7 member layout), for comparison with
`layoutLocs`: "align the running offset up to min(size, MAX_ALIGN) and advance
by size", the member being placed at the aligned offset.  Members with an
explicit `bit_offset` are placed at `bit_offset / 8` as in the source. -/
def specAlignedLocs (info : TypeInfo) : List DataMember → Nat → List Nat
  | [], _ => []
  | m :: ms, offset =>
      match m.bitOffset with
      | some bits => bits / 8 :: specAlignedLocs info ms (bits / 8)
      | none =>
          match tySize info m.typ with
          | some sz =>
              let placed := alignUp offset (min sz MAX_ALIGN)
              placed :: specAlignedLocs info ms (placed + sz)
          | none => offset :: specAlignedLocs info ms offset

/-- Whether a type is a `Function` type (used to state the byte-size claim). -/
def isFunctionTy : Ty → Bool
  | .Function _ _ => true
  | _ => false

/-- The `DW_AT_byte_size` attribute the emitter attaches to the DIE of a type,
per `define_type`'s dispatch: base types set it from `size()` with `Void`
forced to 0 (`define_base_type`); pointers/references set `POINTER_SIZE`
(`define_pointer`); arrays set it when `size()` is known (`define_array`);
aggregates set their recorded size when known (`define_struct`/`define_union`/
`define_enum`; an unresolved id makes the source panic on `expect`, conflated
here with an absent attribute — no claim reaches that case); and
`define_function_type` sets NO byte-size attribute. -/
def emittedByteSizeAttr (info : TypeInfo) : Ty → Option Nat
  | .Void => some 0
  | .Bool => tySize info .Bool
  | .Char s => tySize info (.Char s)
  | .WChar => tySize info .WChar
  | .Short s => tySize info (.Short s)
  | .Int s => tySize info (.Int s)
  | .Long s => tySize info (.Long s)
  | .Float => tySize info .Float
  | .Double => tySize info .Double
  | .Pointer _ => some POINTER_SIZE
  | .Reference _ => some POINTER_SIZE
  | .Array t => tySize info (.Array t)
  | .FixedArray t n => tySize info (.FixedArray t n)
  | .Struct id => (lookupStruct info id).bind (·.size)
  | .Union id => (lookupUnion info id).bind (·.size)
  | .Enum id => (lookupEnum info id).bind (·.size)
  | .Function _ _ => none

/-! ## Executable view (src/core/src/exe.rs) -/

/-- `ParamError` from src/core/src/error.rs.  The human-readable message
payloads (`err.to_string()` of external parse errors, source locations) are
not modelled; only the variant and the offending field/key are. -/
inductive ParamError where
  | InvalidParam (field : String)
  | UnknownParam (key : String)
  | MissingPattern
  | ParseFailure (field : String)
deriving DecidableEq, Repr

/-- Error kinds from src/core/src/error.rs that the embedded code can produce.
Human-readable message payloads of external Display impls are not modelled. -/
inductive ZError where
  | TypedefParamError (name : String) (err : ParamError)
  | InvalidAccess (offset : Nat)
  | UnresolvedName (ident : String)
deriving DecidableEq, Repr

/-- `ExecutableData` from exe.rs: borrowed `.text`/`.rdata` bytes plus their
virtual addresses.  The accessors `image_base` and `text_offset_from_base`
used by symbols.rs are absent from the sources in this snapshot; modelled from
the spec (§3, §6: image base of the binary, and the code section's offset from
it) as two additional fields. -/
structure ExecutableData where
  text : List Nat
  rdata : List Nat
  textOffset : Nat
  rdataOffset : Nat
  imageBase : Nat
  textOffsetFromBase : Nat

/-- The little-endian 32-bit read `i32::from_ne_bytes` performs at `addr`
(native endianness is little on the x86-64 hosts the tool targets). -/
def readU32LE (bs : List Nat) (addr : Nat) : Nat :=
  bs.getD addr 0 + 256 * bs.getD (addr + 1) 0 + 65536 * bs.getD (addr + 2) 0 +
    16777216 * bs.getD (addr + 3) 0

/-- The little-endian 64-bit read `u64::from_ne_bytes` performs at `addr`. -/
def readU64LE (bs : List Nat) (addr : Nat) : Nat :=
  bs.getD addr 0 + 2 ^ 8 * bs.getD (addr + 1) 0 + 2 ^ 16 * bs.getD (addr + 2) 0 +
    2 ^ 24 * bs.getD (addr + 3) 0 + 2 ^ 32 * bs.getD (addr + 4) 0 +
    2 ^ 40 * bs.getD (addr + 5) 0 + 2 ^ 48 * bs.getD (addr + 6) 0 +
    2 ^ 56 * bs.getD (addr + 7) 0

/-- Sign extension of a 32-bit value (`rel as i64` after `i32::from_ne_bytes`). -/
def sign32 (u : Nat) : Int :=
  if u < 2 ^ 31 then (u : Int) else (u : Int) - 2 ^ 32

/-- `ExecutableData::resolve_rel_text`: read a signed 32-bit displacement at
text-relative offset `addr` and return `text_offset + addr + 4 + rel` as a
`u64` (the chain of `as i64` casts and the final `as u64` collapse to one
reduction modulo 2^64).  `text.get(addr..addr+4)` returns `None` out of range,
reported as `InvalidAccess(addr)` without reading. -/
def resolveRelText (exe : ExecutableData) (addr : Nat) : Except ZError Nat :=
  if addr + 4 ≤ exe.text.length then
    .ok (wionat ((exe.textOffset : Int) + (addr : Int) + 4 + sign32 (readU32LE exe.text addr)))
  else
    .error (.InvalidAccess addr)

/-- `ExecutableData::resolve_rel_rdata`: subtract `rdata_offset` (usize
subtraction, wrapping in release builds), read 8 little-endian bytes, return
them as a `u64`; out-of-range reads report `InvalidAccess` with the
already-subtracted offset. -/
def resolveRelRdata (exe : ExecutableData) (addr : Nat) : Except ZError Nat :=
  let a := wsub addr exe.rdataOffset
  if a + 8 ≤ exe.rdata.length then
    .ok (readU64LE exe.rdata a)
  else
    .error (.InvalidAccess a)

/-! ## Expression evaluator (src/core/src/eval.rs) -/

/-- `Expr` from eval.rs. -/
inductive ZExpr where
  | Deref (e : ZExpr)
  | Add (lhs rhs : ZExpr)
  | Sub (lhs rhs : ZExpr)
  | Ident (name : String)
  | Int (value : Nat)
deriving DecidableEq, Repr

/-- `EvalContext` from eval.rs; the `HashMap` of variables is an association
list in which a later `insert` shadows an earlier one (the binding for a key
is the FIRST hit, entries being prepended). -/
structure EvalContext where
  vars : List (String × Nat)
  data : ExecutableData

/-- First-hit association-list lookup (`HashMap::get` for the cons-on-insert
representation). -/
def lookupA (key : String) : List (String × Nat) → Option Nat
  | [] => none
  | (k, v) :: rest => if k == key then some v else lookupA key rest

/-- The variable-binding loop of `EvalContext::new`: for each capture group
`(name : rel, offset)` in declaration order, bind
`name -> resolve_rel_text(offset as u64 + rva)`, the first failure aborting
construction.  Prepending makes later groups shadow earlier ones, matching
`HashMap::insert`. -/
def buildVars (exe : ExecutableData) (rva : Nat) :
    List (String × VarType × Nat) → List (String × Nat) → Except ZError (List (String × Nat))
  | [], acc => .ok acc
  | (key, .Rel, off) :: rest, acc =>
      match resolveRelText exe (wadd off rva) with
      | .error e => .error e
      | .ok v => buildVars exe rva rest ((key, v) :: acc)

/-- `EvalContext::new` from eval.rs. -/
def evalContextNew (pat : Pattern) (exe : ExecutableData) (rva : Nat) :
    Except ZError EvalContext :=
  match buildVars exe rva (patGroups pat) [] with
  | .error e => .error e
  | .ok vars => .ok ⟨vars, exe⟩

/-- `EvalContext::get_var`. -/
def getVar (ctx : EvalContext) (name : String) : Except ZError Nat :=
  match lookupA name ctx.vars with
  | some v => .ok v
  | none => .error (.UnresolvedName name)

/-- `Expr::eval` from eval.rs: `Int(i)` is `i * POINTER_SIZE` in `u64`
arithmetic; `Add`/`Sub` are plain `u64` `+`/`-`, i.e. wrapping modulo 2^64 in
release builds; `Deref` evaluates and dereferences through `.rdata`;
`Ident` looks the name up, failing with `UnresolvedName`. -/
def evalExpr (ctx : EvalContext) : ZExpr → Except ZError Nat
  | .Deref e =>
      match evalExpr ctx e with
      | .ok v => resolveRelRdata ctx.data v
      | .error er => .error er
  | .Add l r =>
      match evalExpr ctx l, evalExpr ctx r with
      | .ok a, .ok b => .ok (wadd a b)
      | .error e, _ => .error e
      | _, .error e => .error e
  | .Sub l r =>
      match evalExpr ctx l, evalExpr ctx r with
      | .ok a, .ok b => .ok (wsub a b)
      | .error e, _ => .error e
      | _, .error e => .error e
  | .Ident name => getVar ctx name
  | .Int i => .ok (wmul i POINTER_SIZE)

/-- Byte offset of the LAST capture group with the given name (the binding
`HashMap::insert` leaves in the context). -/
def lastGroupOff (name : String) : List (String × VarType × Nat) → Option Nat
  | [] => none
  | (k, _, off) :: rest =>
      match lastGroupOff name rest with
      | some o => some o
      | none => if k == name then some off else none

/-! ## Symbol resolver (src/core/src/symbols.rs) -/

/-- Per-spec `SymbolError` from src/core/src/error.rs. -/
inductive SymbolError where
  | MoreThanOneMatch (name : String) (count : Nat)
  | NoMatches (name : String)
  | NotEnoughMatches (name : String) (count : Nat)
  | CountMismatch (name : String) (count : Nat)
deriving DecidableEq, Repr

/-- `FunctionSpec` from src/core/src/spec.rs. -/
structure FunctionSpec where
  name : String
  functionType : FunctionType
  pattern : Pattern
  offset : Option Int
  eval : Option ZExpr
  nthEntryOf : Option (Nat × Nat)

/-- `FunctionSymbol` from src/core/src/symbols.rs. -/
structure FunctionSymbol where
  name : String
  functionType : FunctionType
  rva : Nat

/-- `resolve_symbol` from symbols.rs: with an `eval` expression the address is
`expr.eval(ctx)? - image_base` (wrapping `u64` subtraction); otherwise it is
`(rva as i64 - offset.unwrap_or(0)) as u64 + text_offset_from_base` (the i64
casts and the final u64 cast collapse to a reduction modulo 2^64). -/
def resolveSymbol (spec : FunctionSpec) (exe : ExecutableData) (rva : Nat) :
    Except ZError FunctionSymbol :=
  match spec.eval with
  | some expr =>
      match evalContextNew spec.pattern exe rva with
      | .error e => .error e
      | .ok ctx =>
          match evalExpr ctx expr with
          | .error e => .error e
          | .ok v => .ok ⟨spec.name, spec.functionType, wsub v exe.imageBase⟩
  | none =>
      .ok ⟨spec.name, spec.functionType,
        wadd (wionat ((rva : Int) - spec.offset.getD 0)) exe.textOffsetFromBase⟩

/-- The per-spec match arm of `resolve_in_exe` (lines 25-39).  An empty bucket
is the `None` arm of `match_map.get` (`NoMatches`); a singleton resolves
directly; with several matches an `nth_entry_of = (n, max)` spec first indexes
the bucket (`addrs.get(n)`, out of bounds -> `NotEnoughMatches`), then demands
`max == addrs.len()` (`CountMismatch` otherwise); without `nth_entry_of` the
outcome is `MoreThanOneMatch`. -/
def specOutcome (spec : FunctionSpec) (exe : ExecutableData) (addrs : List Nat) :
    Except ZError (FunctionSymbol ⊕ SymbolError) :=
  match addrs with
  | [] => .ok (.inr (.NoMatches spec.name))
  | [rva] => (resolveSymbol spec exe rva).map .inl
  | _ =>
      match spec.nthEntryOf with
      | some (n, max) =>
          match addrs.get? n with
          | some rva =>
              if max = addrs.length then (resolveSymbol spec exe rva).map .inl
              else .ok (.inr (.CountMismatch spec.name addrs.length))
          | none => .ok (.inr (.NotEnoughMatches spec.name addrs.length))
      | none => .ok (.inr (.MoreThanOneMatch spec.name addrs.length))

/-- `match_map` from `resolve_in_exe`: the bucket for spec index `i` holds the
rvas of the search matches with `pattern == i`, in match order. -/
def bucketOf (hits : List SearchMatch) (i : Nat) : List Nat :=
  hits.filterMap fun m => if m.pattern = i then some m.rva else none

/-- The accumulation loop of `resolve_in_exe`: specs are processed in order
(index `i` counting up); a successful outcome pushes its symbol, a match
failure pushes its error, and an `Err` from `resolve_symbol` aborts the whole
pass via `?`. -/
def collectSpecs (exe : ExecutableData) (bucket : Nat → List Nat) :
    List FunctionSpec → Nat → Except ZError (List FunctionSymbol × List SymbolError)
  | [], _ => .ok ([], [])
  | spec :: rest, i =>
      match specOutcome spec exe (bucket i) with
      | .error e => .error e
      | .ok outcome =>
          match collectSpecs exe bucket rest (i + 1) with
          | .error e => .error e
          | .ok (syms, errs) =>
              match outcome with
              | .inl sym => .ok (sym :: syms, errs)
              | .inr err => .ok (syms, err :: errs)

/-- `resolve_in_exe` from symbols.rs: run the multi-pattern search over the
code section, bucket the match rvas by spec index, then process each spec.
The outer `Option` propagates the panic `multi_search` can raise. -/
def resolveInExe (specs : List FunctionSpec) (exe : ExecutableData) :
    Option (Except ZError (List FunctionSymbol × List SymbolError)) :=
  (multiSearch (specs.map (·.pattern)) exe.text).map fun hits =>
    collectSpecs exe (bucketOf hits) specs 0

/-- One outcome per spec, in spec order: the list `resolve_in_exe`'s loop
produces before it is split into symbols and errors.  Each element depends
only on its own spec and its own bucket. -/
def specOutcomes (exe : ExecutableData) (bucket : Nat → List Nat) :
    List FunctionSpec → Nat → Except ZError (List (FunctionSymbol ⊕ SymbolError))
  | [], _ => .ok []
  | spec :: rest, i =>
      match specOutcome spec exe (bucket i) with
      | .error e => .error e
      | .ok outcome =>
          match specOutcomes exe bucket rest (i + 1) with
          | .error e => .error e
          | .ok os => .ok (outcome :: os)

/-- Split a list of per-spec outcomes into (symbols, match errors), keeping
each side's order. -/
def splitOutcomes (os : List (FunctionSymbol ⊕ SymbolError)) :
    List FunctionSymbol × List SymbolError :=
  (os.filterMap Sum.getLeft?, os.filterMap Sum.getRight?)

/-! ## Pattern DSL parser (the peg grammar in src/core/src/patterns.rs) -/

/-- Hex digits as the grammar accepts them: `['0'..='9' | 'A'..='F']`
(uppercase only). -/
def isHexUp (c : Char) : Bool :=
  (decide ('0' ≤ c) && decide (c ≤ '9')) || (decide ('A' ≤ c) && decide (c ≤ 'F'))

/-- Value of one accepted hex digit. -/
def hexVal (c : Char) : Nat :=
  if decide ('0' ≤ c) && decide (c ≤ '9') then c.toNat - '0'.toNat else c.toNat - 'A'.toNat + 10

/-- The grammar's `_` rule: zero or more spaces/tabs. -/
def dropSpTab (s : List Char) : List Char :=
  s.dropWhile fun c => c == ' ' || c == '\t'

/-- `ident` rule characters: `['a'..='z' | 'A'..='Z' | '_']`. -/
def isIdentChar (c : Char) : Bool :=
  (decide ('a' ≤ c) && decide (c ≤ 'z')) || (decide ('A' ≤ c) && decide (c ≤ 'Z')) || c == '_'

/-- Longest prefix of identifier characters plus the rest of the input. -/
def identSpan (s : List Char) : List Char × List Char :=
  (s.takeWhile isIdentChar, s.dropWhile isIdentChar)

/-- The `item` rule: `byte` (two uppercase hex digits) / `"?"` /
`"(" _ ident _ ":" _ "rel" _ ")"`, in the grammar's choice order. -/
def parseItemC : List Char → Option (PatItem × List Char)
  | c1 :: c2 :: rest =>
      if isHexUp c1 && isHexUp c2 then
        some (.Byte (16 * hexVal c1 + hexVal c2), rest)
      else if c1 == '?' then some (.Any, c2 :: rest)
      else if c1 == '(' then
        let (id, r1) := identSpan (dropSpTab (c2 :: rest))
        if id.isEmpty then none
        else
          match dropSpTab r1 with
          | ':' :: r2 =>
              match dropSpTab r2 with
              | 'r' :: 'e' :: 'l' :: r3 =>
                  match dropSpTab r3 with
                  | ')' :: r4 => some (.Group (String.mk id) .Rel, r4)
                  | _ => none
              | _ => none
          | _ => none
      else none
  | [c] => if c == '?' then some (.Any, []) else none
  | [] => none

/-- The repetition `item() ** _`: parse items separated by optional blanks,
backtracking over a separator that is not followed by another item.  The fuel
is the input length; every iteration consumes at least one character. -/
def patItemsGo : Nat → List Char → List PatItem × List Char
  | 0, s => ([], s)
  | fuel + 1, s =>
      match parseItemC s with
      | none => ([], s)
      | some (it, r1) =>
          let r2 := dropSpTab r1
          match parseItemC r2 with
          | none => ([it], r1)
          | some _ =>
              let (its, rend) := patItemsGo fuel r2
              (it :: its, rend)

/-- `Pattern::parse`: the peg entry point succeeds only when the whole input
is consumed. -/
def parsePatternC (s : List Char) : Option Pattern :=
  let (its, rest) := patItemsGo (s.length + 1) s
  if rest.isEmpty then some its else none

/-! ## Integer parsing (Rust `FromStr`) -/

/-- Digit-string value: `none` unless the input is one or more ASCII digits. -/
def digitsVal (s : List Char) : Option Nat :=
  if s.isEmpty || !s.all (·.isDigit) then none
  else some (s.foldl (fun acc c => acc * 10 + (c.toNat - '0'.toNat)) 0)

/-- `u64`/`usize` `FromStr`: optional `+`, digits, range check. -/
def parseU64C (s : List Char) : Option Nat :=
  let body := match s with
    | '+' :: r => r
    | r => r
  (digitsVal body).bind fun v => if v < U64 then some v else none

/-- `i64` `FromStr`: optional sign, digits, range check. -/
def parseI64C (s : List Char) : Option Int :=
  match s with
  | '-' :: r => (digitsVal r).bind fun v => if v ≤ 2 ^ 63 then some (-(v : Int)) else none
  | '+' :: r => (digitsVal r).bind fun v => if v < 2 ^ 63 then some ((v : Int)) else none
  | r => (digitsVal r).bind fun v => if v < 2 ^ 63 then some ((v : Int)) else none

/-! ## Expression parser (the peg precedence grammar in src/core/src/eval.rs) -/

-- The `precedence!` grammar has two levels above the atoms: left-associative
-- `+`/`-` (with optional blanks around the operator), and the prefix deref
-- `"*" e:expr()` whose operand is a recursive call to the FULL expression
-- rule.  Atoms are `number` (a `u64`, overflow failing the alternative),
-- a parenthesised expression, and `ident`.  The mutual recursion is bounded
-- by a fuel argument, generously seeded (every grammar step consumes input).
mutual

def pExprAtom : Nat → List Char → Option (ZExpr × List Char)
  | 0, _ => none
  | fuel + 1, s =>
      match s with
      | c :: _ =>
          if c.isDigit then
            let ds := s.takeWhile (·.isDigit)
            (digitsVal ds).bind fun v =>
              if v < U64 then some (.Int v, s.dropWhile (·.isDigit)) else none
          else if c == '(' then
            match pExprFull fuel (s.drop 1) with
            | some (e, r) =>
                match r with
                | ')' :: r2 => some (e, r2)
                | _ => none
            | none => none
          else
            let (id, r) := identSpan s
            if id.isEmpty then none else some (.Ident (String.mk id), r)
      | [] => none

def pExprL2 : Nat → List Char → Option (ZExpr × List Char)
  | 0, _ => none
  | fuel + 1, s =>
      match s with
      | '*' :: r => (pExprFull fuel r).map fun (e, rest) => (.Deref e, rest)
      | _ => pExprAtom fuel s

def pExprOps : Nat → ZExpr → List Char → ZExpr × List Char
  | 0, acc, s => (acc, s)
  | fuel + 1, acc, s =>
      match dropSpTab s with
      | '+' :: r =>
          match pExprL2 fuel (dropSpTab r) with
          | some (y, r2) => pExprOps fuel (.Add acc y) r2
          | none => (acc, s)
      | '-' :: r =>
          match pExprL2 fuel (dropSpTab r) with
          | some (y, r2) => pExprOps fuel (.Sub acc y) r2
          | none => (acc, s)
      | _ => (acc, s)

def pExprFull : Nat → List Char → Option (ZExpr × List Char)
  | 0, _ => none
  | fuel + 1, s =>
      match pExprL2 fuel s with
      | some (x, r) => some (pExprOps fuel x r)
      | none => none

end

/-- `Expr::parse`: full-input entry point of the expression grammar. -/
def parseExprC (s : List Char) : Option ZExpr :=
  match pExprFull (4 * s.length + 8) s with
  | some (e, rest) => if rest.isEmpty then some e else none
  | none => none

/-! ## Function-spec construction (src/core/src/spec.rs) -/

/-- Rust `char::is_whitespace` restricted to its ASCII members (the Unicode
extras never occur in the inputs considered here). -/
def isWsC (c : Char) : Bool := c == ' ' || c == '\t' || c == '\n' || c == '\r'

/-- `str::trim_start`. -/
def trimStartC (s : List Char) : List Char := s.dropWhile isWsC

/-- `str::trim_end`. -/
def trimEndC (s : List Char) : List Char := (s.reverse.dropWhile isWsC).reverse

/-- `str::trim`. -/
def trimC (s : List Char) : List Char := trimEndC (trimStartC s)

/-- `str::strip_prefix`. -/
def stripPre (pre s : List Char) : Option (List Char) :=
  if s.take pre.length == pre then some (s.drop pre.length) else none

/-- `str::split_once(c)`: split at the first occurrence of `c`. -/
def splitOnceC (c : Char) : List Char → Option (List Char × List Char)
  | [] => none
  | d :: rest =>
      if d == c then some ([], rest)
      else (splitOnceC c rest).map fun (a, b) => (d :: a, b)

/-- `parse_typedef_comment` from spec.rs: trim, strip `///`, trim, strip `@`,
split at the first space into key and value, trim the value. -/
def parseTypedefComment (line : String) : Option (String × String) :=
  (stripPre ['/', '/', '/'] (trimStartC line.toList)).bind fun r1 =>
    (stripPre ['@'] (trimStartC r1)).bind fun r2 =>
      (splitOnceC ' ' r2).map fun (k, v) => (String.mk k, String.mk (trimC v))

/-- The comment loop of `FunctionSpec::new`: parsed key/value pairs are
`HashMap::insert`ed, a later comment overwriting an earlier one with the same
key.  The map is the cons-on-insert association list (`lookupP` takes the
first, i.e. most recent, hit). -/
def collectParams (comments : List String) : List (String × String) :=
  comments.foldl
    (fun acc c =>
      match parseTypedefComment c with
      | some kv => kv :: acc
      | none => acc)
    []

/-- `HashMap::get` on the parameter map. -/
def lookupP (key : String) : List (String × String) → Option String
  | [] => none
  | (k, v) :: rest => if k == key then some v else lookupP key rest

/-- `HashMap::remove`: the mapping for the key (if any) plus the map without
any entry for that key. -/
def removeP (key : String) (params : List (String × String)) :
    Option String × List (String × String) :=
  (lookupP key params, params.filter fun kv => kv.1 != key)

/-- `parse_index_specifier` from spec.rs: `n/total`, both sides trimmed and
parsed as `usize`. -/
def parseIndexSpecifier (s : String) : Except ParamError (Nat × Nat) :=
  match splitOnceC '/' s.toList with
  | none => .error (.InvalidParam "nth")
  | some (n, max) =>
      match parseU64C (trimC n), parseU64C (trimC max) with
      | some a, some b => .ok (a, b)
      | _, _ => .error (.InvalidParam "nth")

/-- `FunctionSpec::from_params`: take `pattern` (required), `offset`, `eval`
and `nth` out of the map, then reject any leftover key as unknown.
(`HashMap::keys().next()` yields an arbitrary leftover key; the list head
stands in for it.) -/
def fromParams (name : String) (ft : FunctionType) (params : List (String × String)) :
    Except ParamError FunctionSpec :=
  match removeP "pattern" params with
  | (none, _) => .error .MissingPattern
  | (some pstr, params) =>
      match parsePatternC pstr.toList with
      | none => .error (.ParseFailure "pattern")
      | some pat =>
          let (ov, params) := removeP "offset" params
          match ov.map (fun s => parseI64C s.toList) with
          | some none => .error (.InvalidParam "offset")
          | offres =>
              let offset := offres.bind id
              let (ev, params) := removeP "eval" params
              match ev.map (fun s => parseExprC s.toList) with
              | some none => .error (.ParseFailure "eval")
              | evres =>
                  let eval := evres.bind id
                  let (nv, params) := removeP "nth" params
                  match nv.map parseIndexSpecifier with
                  | some (.error e) => .error e
                  | nthres =>
                      let nth := nthres.bind fun r =>
                        match r with
                        | .ok v => some v
                        | .error _ => none
                      match params with
                      | [] => .ok ⟨name, ft, pat, offset, eval, nth⟩
                      | (k, _) :: _ => .error (.UnknownParam k)

/-- `FunctionSpec::new` from spec.rs: collect `@key value` parameters from the
typedef's comments (later duplicates overwriting earlier ones); with no
parameters the typedef contributes no spec; otherwise build the spec,
tagging any parameter error with the typedef name. -/
def functionSpecNew (name : String) (ft : FunctionType) (comments : List String) :
    Option (Except ZError FunctionSpec) :=
  let params := collectParams comments
  if params.isEmpty then none
  else
    some
      (match fromParams name ft params with
       | .ok spec => .ok spec
       | .error e => .error (.TypedefParamError name e))

/-- The value of the last comment (in comment order) that parses to the given
key: the reference "last occurrence wins" semantics the parameter map is
compared against. -/
def lastParsedValue (key : String) : List String → Option String
  | [] => none
  | c :: rest =>
      match lastParsedValue key rest with
      | some v => some v
      | none =>
          (parseTypedefComment c).bind fun kv =>
            if kv.1 == key then some kv.2 else none

/-- Offset-indexed reading of the match predicate (the corrected claim C3 is
stated against this): every `Byte` item at byte offset `i` needs `b[i]` to
equal its value, every `Group` needs its 4 bytes to lie inside the slice, and
`Any` items impose nothing (in particular trailing `Any` items may run past
the end of the slice). -/
def condFrom (bs : List Nat) : List PatItem → Nat → Prop
  | [], _ => True
  | .Byte v :: ps, i => (i < bs.length ∧ bs.get? i = some v) ∧ condFrom bs ps (i + 1)
  | .Any :: ps, i => condFrom bs ps (i + 1)
  | .Group _ _ :: ps, i => i + 4 ≤ bs.length ∧ condFrom bs ps (i + 4)

/-! ## Theorems -/

theorem condFrom_nil_shift : ∀ (ps : List PatItem) (j k : Nat),
    condFrom [] ps j ↔ condFrom [] ps k := by
  intro ps
  induction ps with
  | nil => intro j k; simp [condFrom]
  | cons p ps ih =>
    intro j k
    cases p with
    | Byte v => simp [condFrom]
    | Any => simpa [condFrom] using ih (j + 1) (k + 1)
    | Group n t => simp [condFrom]

theorem condFrom_cons_shift : ∀ (ps : List PatItem) (b : Nat) (bs : List Nat) (k : Nat),
    condFrom (b :: bs) ps (k + 1) ↔ condFrom bs ps k := by
  intro ps
  induction ps with
  | nil => intro b bs k; simp [condFrom]
  | cons p ps ih =>
    intro b bs k
    cases p with
    | Byte v =>
      simp only [condFrom, List.length_cons, List.get?_cons_succ, ih b bs (k + 1)]
      exact and_congr (and_congr (by omega) Iff.rfl) Iff.rfl
    | Any => simpa [condFrom] using ih b bs (k + 1)
    | Group n t =>
      have h4 : k + 1 + 4 = (k + 4) + 1 := by omega
      simp only [condFrom, List.length_cons, h4, ih b bs (k + 4)]
      exact and_congr (by omega) Iff.rfl

/-- C3 (amended): `Pattern::does_match` succeeds iff every `Byte` item's byte
offset is inside the slice with the expected value there and every `Group`
item's four bytes fit, while `Any` items impose nothing — so trailing `Any`
items may extend past the end of the slice. -/
theorem c3_matches_iff : ∀ (ps : List PatItem) (bs : List Nat),
    doesMatch ps bs = true ↔ condFrom bs ps 0 := by
  intro ps
  induction ps with
  | nil => intro bs; simp [doesMatch, condFrom]
  | cons p ps ih =>
    intro bs
    cases p with
    | Byte v =>
      cases bs with
      | nil => simp [doesMatch, condFrom]
      | cons b bs =>
        simp only [doesMatch, Bool.and_eq_true, beq_iff_eq, condFrom, List.length_cons,
          List.get?_cons_zero, Option.some.injEq, condFrom_cons_shift, ← ih bs]
        constructor
        · rintro ⟨h, hx⟩
          exact ⟨⟨Nat.succ_pos _, h.symm⟩, hx⟩
        · rintro ⟨⟨_, h⟩, hx⟩
          exact ⟨h.symm, hx⟩
    | Any =>
      cases bs with
      | nil =>
        have h1 : condFrom [] ps 1 ↔ condFrom [] ps 0 := condFrom_nil_shift ps 1 0
        simp only [doesMatch, condFrom]
        rw [show (1 : Nat) = 0 + 1 from rfl] at h1
        rw [h1, ← ih []]
      | cons b bs =>
        simp only [doesMatch, condFrom, condFrom_cons_shift, ← ih bs]
    | Group n t =>
      cases t
      by_cases hlen : 4 ≤ bs.length
      · rcases bs with _ | ⟨b1, _ | ⟨b2, _ | ⟨b3, _ | ⟨b4, rest⟩⟩⟩⟩ <;>
          simp only [List.length_nil, List.length_cons] at hlen <;> try omega
        have hs : condFrom (b1 :: b2 :: b3 :: b4 :: rest) ps (0 + 4) ↔ condFrom rest ps 0 := by
          rw [show (0 : Nat) + 4 = 3 + 1 from rfl, condFrom_cons_shift,
            show (3 : Nat) = 2 + 1 from rfl, condFrom_cons_shift,
            show (2 : Nat) = 1 + 1 from rfl, condFrom_cons_shift,
            show (1 : Nat) = 0 + 1 from rfl, condFrom_cons_shift]
        have hd : doesMatch (.Group n .Rel :: ps) (b1 :: b2 :: b3 :: b4 :: rest) =
            doesMatch ps rest := by
          simp [doesMatch, PatItem.size]
        rw [hd, ih rest]
        simp only [condFrom, hs, List.length_cons]
        constructor
        · intro h; exact ⟨by omega, h⟩
        · rintro ⟨_, h⟩; exact h
      · have hd : doesMatch (.Group n .Rel :: ps) bs = false := by
          simp [doesMatch, PatItem.size, hlen]
        rw [hd]
        simp only [condFrom]
        constructor
        · intro h; cases h
        · rintro ⟨h, _⟩; omega

/-- C3 counterexample: the claim says the predicate returns false for every
slice shorter than the pattern size, but the pattern `AA ?` matches the
one-byte slice `[0xAA]` even though its size is 2 (the trailing `Any`'s
ignored `next()` lets it run past the end). -/
theorem c3_counterexample :
    doesMatch [.Byte 0xAA, .Any] [0xAA] = true ∧
      ([0xAA] : List Nat).length < patSize [.Byte 0xAA, .Any] :=
  ⟨rfl, by decide⟩

/-- C1: evaluating the member-layout loop of `define_struct` on the struct
`S { a: char, b: int32_t }` (no base, no bit offsets, no virtual methods).
The code places `b` at `DW_AT_data_member_location` 1, because the
`DW_AT_data_member_location` is set before the running offset is adjusted and
the adjustment `offset += offset % align` does not align up; the spec's
align-up layout places `b` at 4. -/
theorem c1_struct_layout_bug :
    defineStructLocs
        ⟨[( "S", ⟨ "S", none,
            [⟨ "a", .Char true, none, false⟩, ⟨ "b", .Int true, none, false⟩], [], some 8⟩)],
          [], []⟩
        ⟨ "S", none,
          [⟨ "a", .Char true, none, false⟩, ⟨ "b", .Int true, none, false⟩], [], some 8⟩
      = [0, 1] ∧
    specAlignedLocs
        ⟨[( "S", ⟨ "S", none,
            [⟨ "a", .Char true, none, false⟩, ⟨ "b", .Int true, none, false⟩], [], some 8⟩)],
          [], []⟩
        [⟨ "a", .Char true, none, false⟩, ⟨ "b", .Int true, none, false⟩] 0
      = [0, 4] :=
  ⟨rfl, rfl⟩

/-- C2: evaluating `multi_search` at a haystack on which an Aho-Corasick hit
survives to the slicing step with `start + size` beyond the haystack: the
pattern `AA BB ?` (longest literal run `AA BB` at offset 0, total size 3)
against the two-byte haystack `AA BB`.  The candidate slice
`haystack[0..3]` is taken without a bounds check, so the search panics —
modelled as `none` — instead of discarding the hit. -/
theorem c2_multi_search_panics :
    multiSearch [[.Byte 0xAA, .Byte 0xBB, .Any]] [0xAA, 0xBB] = none :=
  rfl

/-- C4 (amended): for every type other than a `Function` type whose size is
defined under the given `TypeInfo`, the emitted DIE carries
`DW_AT_byte_size` equal to that size (`Void` included: its forced byte size 0
equals `size(Void)`).  `Function` types are the exception — see the
counterexample. -/
theorem c4_byte_size_matches_size (info : TypeInfo) (t : Ty) (s : Nat)
    (hf : isFunctionTy t = false) (hs : tySize info t = some s) :
    emittedByteSizeAttr info t = some s := by
  cases t <;> simp_all [isFunctionTy, tySize, emittedByteSizeAttr, POINTER_SIZE]

theorem c4_witness :
    emittedByteSizeAttr ⟨[], [], []⟩ (.Int true) = some 4 :=
  c4_byte_size_matches_size ⟨[], [], []⟩ (.Int true) 4 rfl rfl

/-- C4 counterexample: a `Function` type has a defined size (`POINTER_SIZE`),
but `define_function_type` attaches no `DW_AT_byte_size` to the
`DW_TAG_subroutine_type` DIE. -/
theorem c4_counterexample :
    tySize ⟨[], [], []⟩ (.Function .nil .Void) = some POINTER_SIZE ∧
      emittedByteSizeAttr ⟨[], [], []⟩ (.Function .nil .Void) = none :=
  ⟨rfl, rfl⟩

/-- C5 (amended): with `nth_entry_of = (n, total)` and two or more matches,
the resolver FIRST bounds-checks `n` against the bucket: an out-of-bounds `n`
yields `NotEnoughMatches` (even when the count differs from `total`); only
for an in-bounds `n` is the count compared with `total`, a mismatch yielding
`CountMismatch` and agreement selecting the rva at index `n`. -/
theorem c5_nth_selection (spec : FunctionSpec) (exe : ExecutableData)
    (addrs : List Nat) (n total : Nat)
    (hn : spec.nthEntryOf = some (n, total)) (hlen : 2 ≤ addrs.length) :
    specOutcome spec exe addrs =
      match addrs.get? n with
      | some rva =>
          if total = addrs.length then (resolveSymbol spec exe rva).map Sum.inl
          else .ok (.inr (.CountMismatch spec.name addrs.length))
      | none => .ok (.inr (.NotEnoughMatches spec.name addrs.length)) := by
  match addrs, hlen with
  | a :: b :: rest, _ =>
    simp only [specOutcome, hn]

theorem c5_witness :
    specOutcome ⟨ "f", ⟨.nil, .Void⟩, [.Byte 0xAA], none, none, some (0, 2)⟩
        ⟨[0xAA, 0xAA], [], 0, 0, 0, 0⟩ [5, 9] =
      match ([5, 9] : List Nat).get? 0 with
      | some rva =>
          if 2 = ([5, 9] : List Nat).length then
            (resolveSymbol ⟨ "f", ⟨.nil, .Void⟩, [.Byte 0xAA], none, none, some (0, 2)⟩
              ⟨[0xAA, 0xAA], [], 0, 0, 0, 0⟩ rva).map Sum.inl
          else .ok (.inr (.CountMismatch "f" ([5, 9] : List Nat).length))
      | none => .ok (.inr (.NotEnoughMatches "f" ([5, 9] : List Nat).length)) :=
  c5_nth_selection _ _ [5, 9] 0 2 rfl (by decide)

/-- C5 counterexample: a spec with `nth_entry_of = (2, 3)` whose pattern
matches exactly twice.  The claim demands `CountMismatch` (observed count 2
differs from total 3) regardless of the index being out of bounds, but the
code bounds-checks first and reports `NotEnoughMatches`. -/
theorem c5_counterexample :
    resolveInExe [⟨ "f", ⟨.nil, .Void⟩, [.Byte 0xAA], none, none, some (2, 3)⟩]
        ⟨[0xAA, 0xAA], [], 0, 0, 0, 0⟩ =
      some (.ok ([], [.NotEnoughMatches "f" 2])) ∧
    SymbolError.NotEnoughMatches "f" 2 ≠ SymbolError.CountMismatch "f" 2 :=
  ⟨rfl, by decide⟩

/-- C6 (amended): the structural name function is NOT injective — there are
structurally distinct types with the same rendered name, so the DWARF
emitter's name-keyed cache can map two distinct types to one DIE. -/
theorem c6_names_not_injective :
    ∃ t₁ t₂ : Ty, t₁ ≠ t₂ ∧ tyName t₁ = tyName t₂ :=
  ⟨.Pointer (.Array (.Int true)), .Array (.Pointer (.Int true)),
    fun h => Ty.noConfusion h, rfl⟩

/-- C6 counterexample: a pointer to an array of `int32_t` and an array of
pointers to `int32_t` — precisely the pair the claim asserts to be
distinguished — both render as `int32_t*[]`. -/
theorem c6_counterexample :
    tyName (.Pointer (.Array (.Int true))) = "int32_t*[]" ∧
      tyName (.Array (.Pointer (.Int true))) = "int32_t*[]" ∧
      Ty.Pointer (.Array (.Int true)) ≠ Ty.Array (.Pointer (.Int true)) :=
  ⟨rfl, rfl, fun h => Ty.noConfusion h⟩

theorem collectSpecs_eq_outcomes (exe : ExecutableData) (bucket : Nat → List Nat) :
    ∀ (specs : List FunctionSpec) (i : Nat),
      collectSpecs exe bucket specs i = (specOutcomes exe bucket specs i).map splitOutcomes := by
  intro specs
  induction specs with
  | nil => intro i; rfl
  | cons s ss ih =>
    intro i
    simp only [collectSpecs, specOutcomes]
    cases specOutcome s exe (bucket i) with
    | error e => rfl
    | ok o =>
      rw [ih (i + 1)]
      cases h2 : specOutcomes exe bucket ss (i + 1) with
      | error e => rfl
      | ok os =>
        cases o with
        | inl sym => simp [Except.map, splitOutcomes]
        | inr err => simp [Except.map, splitOutcomes]

theorem specOutcomes_length (exe : ExecutableData) (bucket : Nat → List Nat) :
    ∀ (specs : List FunctionSpec) (i : Nat) (os : List (FunctionSymbol ⊕ SymbolError)),
      specOutcomes exe bucket specs i = .ok os → os.length = specs.length := by
  intro specs
  induction specs with
  | nil => intro i os h; cases h; rfl
  | cons s ss ih =>
    intro i os h
    simp only [specOutcomes] at h
    cases hs : specOutcome s exe (bucket i) with
    | error e => rw [hs] at h; exact Except.noConfusion h
    | ok o =>
      rw [hs] at h
      cases h2 : specOutcomes exe bucket ss (i + 1) with
      | error e => rw [h2] at h; exact Except.noConfusion h
      | ok os2 =>
        rw [h2] at h
        cases h
        simp [ih (i + 1) os2 h2]

/-- C7 (amended): whenever the multi-pattern search completes without
panicking, `resolve_in_exe` returns exactly the per-spec outcome list split
into (symbols, match errors): each spec contributes one outcome computed from
its own spec and its own bucket alone, successes and failures keep their
spec order on their respective sides, and the whole pass becomes an `Err`
exactly when some spec's address resolution (`resolve_symbol`) fails. -/
theorem c7_per_spec_outcomes (specs : List FunctionSpec) (exe : ExecutableData)
    (hits : List SearchMatch)
    (h : multiSearch (specs.map (·.pattern)) exe.text = some hits) :
    resolveInExe specs exe =
      some ((specOutcomes exe (bucketOf hits) specs 0).map splitOutcomes) := by
  unfold resolveInExe
  rw [h]
  show some (collectSpecs exe (bucketOf hits) specs 0) = _
  rw [collectSpecs_eq_outcomes]

theorem c7_witness :
    resolveInExe [⟨ "g", ⟨.nil, .Void⟩, [.Byte 0xAA], none, none, none⟩]
        ⟨[0xAA], [], 0, 0, 0, 0⟩ =
      some ((specOutcomes ⟨[0xAA], [], 0, 0, 0, 0⟩ (bucketOf [⟨0, 0⟩])
        [⟨ "g", ⟨.nil, .Void⟩, [.Byte 0xAA], none, none, none⟩] 0).map splitOutcomes) :=
  c7_per_spec_outcomes _ _ [⟨0, 0⟩] rfl

/-- C7 counterexample: the claim quantifies over every list of specs and
every executable view, but `resolve_in_exe` does not return a pair at all on
this input — the underlying search slices out of range and panics. -/
theorem c7_counterexample :
    resolveInExe [⟨ "f", ⟨.nil, .Void⟩, [.Byte 0xAA, .Byte 0xBB, .Any], none, none, none⟩]
        ⟨[0xAA, 0xBB], [], 0, 0, 0, 0⟩ = none :=
  rfl

/-- C8: in the capture-address evaluator, `Int(n)` evaluates to
`n * POINTER_SIZE` in `u64` arithmetic, and `Add`/`Sub` combine the values of
their operands with unsigned 64-bit wrapping addition/subtraction, returning
`ok` (never failing) whenever both operands evaluate. -/
theorem c8_eval_wrapping (ctx : EvalContext) (n a b : Nat) (l r : ZExpr)
    (hl : evalExpr ctx l = .ok a) (hr : evalExpr ctx r = .ok b) :
    evalExpr ctx (.Int n) = .ok (n * POINTER_SIZE % U64) ∧
      evalExpr ctx (.Add l r) = .ok ((a + b) % U64) ∧
      evalExpr ctx (.Sub l r) = .ok ((a % U64 + (U64 - b % U64)) % U64) := by
  refine ⟨rfl, ?_, ?_⟩ <;> simp [evalExpr, hl, hr, wadd, wsub]

theorem c8_witness :
    evalExpr ⟨[], ⟨[], [], 0, 0, 0, 0⟩⟩ (.Int 5) = .ok (5 * POINTER_SIZE % U64) ∧
      evalExpr ⟨[], ⟨[], [], 0, 0, 0, 0⟩⟩ (.Add (.Int 1) (.Int 2)) = .ok ((8 + 16) % U64) ∧
      evalExpr ⟨[], ⟨[], [], 0, 0, 0, 0⟩⟩ (.Sub (.Int 1) (.Int 2)) =
        .ok ((8 % U64 + (U64 - 16 % U64)) % U64) :=
  c8_eval_wrapping ⟨[], ⟨[], [], 0, 0, 0, 0⟩⟩ 5 8 16 (.Int 1) (.Int 2) rfl rfl

theorem buildVars_lookup_none (exe : ExecutableData) (rva : Nat) (name : String) :
    ∀ (groups : List (String × VarType × Nat)) (acc vars : List (String × Nat)),
      buildVars exe rva groups acc = .ok vars →
      lastGroupOff name groups = none →
      lookupA name vars = lookupA name acc := by
  intro groups
  induction groups with
  | nil =>
    intro acc vars h _
    cases h
    rfl
  | cons g rest ih =>
    obtain ⟨k, tv, off⟩ := g
    cases tv
    intro acc vars h hnone
    cases hr : resolveRelText exe (wadd off rva) with
    | error e =>
      simp [buildVars, hr] at h
    | ok v =>
      simp only [buildVars, hr] at h
      cases hl2 : lastGroupOff name rest with
      | some o2 => simp [lastGroupOff, hl2] at hnone
      | none =>
        simp only [lastGroupOff, hl2] at hnone
        rw [ih ((k, v) :: acc) vars h hl2]
        have hk : (k == name) = false := by
          cases hbe : (k == name) with
          | true => simp [hbe] at hnone
          | false => rfl
        simp [lookupA, hk]

theorem buildVars_lookup_last (exe : ExecutableData) (rva : Nat) (name : String) :
    ∀ (groups : List (String × VarType × Nat)) (acc vars : List (String × Nat)) (o : Nat),
      buildVars exe rva groups acc = .ok vars →
      lastGroupOff name groups = some o →
      (match lookupA name vars with
       | some v => Except.ok v
       | none => Except.error (ZError.UnresolvedName name)) =
        resolveRelText exe (wadd o rva) := by
  intro groups
  induction groups with
  | nil => intro acc vars o _ hlast; exact Option.noConfusion hlast
  | cons g rest ih =>
    obtain ⟨k, tv, off⟩ := g
    cases tv
    intro acc vars o h hlast
    cases hr : resolveRelText exe (wadd off rva) with
    | error e =>
      simp [buildVars, hr] at h
    | ok v =>
      simp only [buildVars, hr] at h
      cases hl2 : lastGroupOff name rest with
      | some o2 =>
        have ho : o2 = o := by
          simp only [lastGroupOff, hl2, Option.some.injEq] at hlast
          exact hlast
        subst ho
        exact ih ((k, v) :: acc) vars o2 h hl2
      | none =>
        simp only [lastGroupOff, hl2] at hlast
        cases hbe : (k == name) with
        | false => simp [hbe] at hlast
        | true =>
          simp only [hbe, if_pos] at hlast
          cases hlast
          have hlook : lookupA name vars = some v := by
            rw [buildVars_lookup_none exe rva name rest ((k, v) :: acc) vars h hl2]
            simp [lookupA, hbe]
          rw [hlook, hr]

/-- C9: `resolve_rel_text` — (1) when the four bytes at `addr` are inside
`.text` (witnessed by the four successful indexed reads), the result is
`text_base + addr + 4 + d` as a `u64`, `d` being the sign-extended
little-endian 32-bit value of those bytes; (2) when the 4-byte read is out of
range (shown at the always-out-of-range offset `|text|`) the result is
`InvalidAccess` carrying that offset, no byte being read; (3) and through
`EvalContext::new`, a capture group bound at byte offset `o` in a match at
`rva` evaluates (via an `@eval` identifier) to exactly
`resolve_rel_text(o + rva)`. -/
theorem c9_resolve_rel_text (exe : ExecutableData) (addr addr2 b0 b1 b2 b3 : Nat)
    (pat : Pattern) (rva : Nat) (name : String) (o : Nat) (ctx : EvalContext)
    (h0 : exe.text[addr]? = some b0) (h1 : exe.text[addr + 1]? = some b1)
    (h2 : exe.text[addr + 2]? = some b2) (h3 : exe.text[addr + 3]? = some b3)
    (hoob : exe.text.length < addr2 + 4)
    (hlast : lastGroupOff name (patGroups pat) = some o)
    (hctx : evalContextNew pat exe rva = .ok ctx) :
    resolveRelText exe addr =
        .ok (wionat ((exe.textOffset : Int) + addr + 4 +
          sign32 (b0 + 256 * b1 + 65536 * b2 + 16777216 * b3))) ∧
      resolveRelText exe addr2 = .error (.InvalidAccess addr2) ∧
      evalExpr ctx (.Ident name) = resolveRelText exe (wadd o rva) := by
  refine ⟨?_, ?_, ?_⟩
  · have hlen : addr + 4 ≤ exe.text.length := by
      have hlt : addr + 3 < exe.text.length := by
        by_contra hge
        rw [List.getElem?_eq_none (by omega)] at h3
        exact Option.noConfusion h3
      omega
    have hread : readU32LE exe.text addr = b0 + 256 * b1 + 65536 * b2 + 16777216 * b3 := by
      unfold readU32LE
      rw [List.getD_eq_getElem?_getD, List.getD_eq_getElem?_getD, List.getD_eq_getElem?_getD,
        List.getD_eq_getElem?_getD, h0, h1, h2, h3]
      rfl
    unfold resolveRelText
    rw [if_pos hlen, hread]
  · unfold resolveRelText
    rw [if_neg (by omega)]
  · unfold evalContextNew at hctx
    cases hb : buildVars exe rva (patGroups pat) [] with
    | error e => rw [hb] at hctx; exact Except.noConfusion hctx
    | ok vars =>
      rw [hb] at hctx
      cases hctx
      show (match lookupA name vars with
            | some v => Except.ok v
            | none => Except.error (ZError.UnresolvedName name)) =
        resolveRelText exe (wadd o rva)
      exact buildVars_lookup_last exe rva name (patGroups pat) [] vars o hb hlast

theorem c9_witness :
    resolveRelText ⟨[0xE8, 0x10, 0, 0, 0], [], 0x1000, 0, 0, 0⟩ 1 =
        .ok (wionat ((0x1000 : Int) + 1 + 4 + sign32 (0x10 + 256 * 0 + 65536 * 0 + 16777216 * 0))) ∧
      resolveRelText ⟨[0xE8, 0x10, 0, 0, 0], [], 0x1000, 0, 0, 0⟩ 5 =
        .error (.InvalidAccess 5) ∧
      evalExpr ⟨[( "fn", 0x1015)], ⟨[0xE8, 0x10, 0, 0, 0], [], 0x1000, 0, 0, 0⟩⟩ (.Ident "fn") =
        resolveRelText ⟨[0xE8, 0x10, 0, 0, 0], [], 0x1000, 0, 0, 0⟩ (wadd 1 0) :=
  c9_resolve_rel_text ⟨[0xE8, 0x10, 0, 0, 0], [], 0x1000, 0, 0, 0⟩ 1 5 0x10 0 0 0
    [.Byte 0xE8, .Group "fn" .Rel] 0 "fn" 1
    ⟨[( "fn", 0x1015)], ⟨[0xE8, 0x10, 0, 0, 0], [], 0x1000, 0, 0, 0⟩⟩
    rfl rfl rfl rfl (by decide) rfl rfl

theorem lookupP_collect (key : String) :
    ∀ (comments : List String) (acc : List (String × String)),
      lookupP key (comments.foldl
        (fun acc c =>
          match parseTypedefComment c with
          | some kv => kv :: acc
          | none => acc) acc) =
      match lastParsedValue key comments with
      | some v => some v
      | none => lookupP key acc := by
  intro comments
  induction comments with
  | nil => intro acc; rfl
  | cons c cs ih =>
    intro acc
    simp only [List.foldl_cons, lastParsedValue]
    cases hp : parseTypedefComment c with
    | none =>
      show lookupP key (List.foldl
          (fun acc c =>
            match parseTypedefComment c with
            | some kv => kv :: acc
            | none => acc) acc cs) =
        match (match lastParsedValue key cs with
               | some v => some v
               | none => (none : Option String)) with
        | some v => some v
        | none => lookupP key acc
      rw [ih acc]
      cases lastParsedValue key cs <;> rfl
    | some kv =>
      show lookupP key (List.foldl
          (fun acc c =>
            match parseTypedefComment c with
            | some kv => kv :: acc
            | none => acc) (kv :: acc) cs) =
        match (match lastParsedValue key cs with
               | some v => some v
               | none => if (kv.1 == key) = true then some kv.2 else none) with
        | some v => some v
        | none => lookupP key acc
      rw [ih (kv :: acc)]
      cases lastParsedValue key cs with
      | some v => rfl
      | none =>
        cases hbe : (kv.1 == key) with
        | true => simp [lookupP, hbe]
        | false => simp [lookupP, hbe]

/-- C10: FunctionSpec construction keeps, for each `@key`, the value of the
LAST comment (in comment order) carrying that key — the parameter map's
binding equals the last parsed occurrence for every comment list — and a
duplicated key is never reported as an error: the concrete construction with
`@offset` given twice succeeds and carries the second value. -/
theorem c10_duplicate_keys_last_wins :
    (∀ (comments : List String) (key : String),
        lookupP key (collectParams comments) = lastParsedValue key comments) ∧
      functionSpecNew "f" ⟨.nil, .Void⟩
          [ "/// @pattern AA", "/// @offset 1", "/// @offset 2"] =
        some (.ok ⟨ "f", ⟨.nil, .Void⟩, [.Byte 0xAA], some 2, none, none⟩) := by
  constructor
  · intro comments key
    rw [collectParams, lookupP_collect key comments []]
    cases lastParsedValue key comments <;> rfl
  · rfl
